import Mathlib

/-!
Verification of the rotating-file writer in `lumberjack.go` (package `log`).

The Go code is shallowly embedded: file contents are tracked by their sizes
(the properties under scrutiny are about sizes, counts, names and timestamps),
machine integers become `Nat`/`Int`, and the fallible I/O primitives are
driven by explicit Boolean oracles ("does this primitive call fail?") so that
error-propagation behaviour can be stated and proved.  The mill goroutine's
channel signalling (`Writer.mill`) is asynchronous-only and does not change
writer state, so it is not part of the state model; `millRunOnce` itself is
modelled in full further below.
-/

namespace RLog

/-- Embedding of the package constant `defaultMaxSize = 100` (megabytes). -/
def defaultMaxSize : Nat := 100

/-- Configuration fields of `Writer` that the write/rotate path reads, plus
the package variable `megabyte` (a variable so tests can mock it; normally
`1024*1024`). -/
structure Config where
  maxSize : Nat
  maxAge : Nat
  maxBackups : Nat
  compress : Bool
  megabyte : Nat
  deriving Repr, DecidableEq

/-- Embedding of `Writer.max`: maximum size in bytes of log files before
rolling; `MaxSize` megabytes, or `defaultMaxSize` megabytes when `MaxSize`
is zero. -/
def maxBytes (c : Config) : Nat :=
  if c.maxSize = 0 then defaultMaxSize * c.megabyte else c.maxSize * c.megabyte

/-- Mutable state of a `Writer` together with the relevant slice of the file
system: `fileOpen` is `w.file != nil`, `size` is `w.size`, `disk` is the size
of the file currently at the target path (`none` when absent), and `backups`
lists the sizes of the backup files created by renames, newest first. -/
structure WState where
  fileOpen : Bool
  size : Nat
  disk : Option Nat
  backups : List Nat
  deriving Repr, DecidableEq

/-- Errors surfaced by the write/open path of the model. -/
inductive WErr where
  | writeTooLong
  | statFailed
  | openNewFailed
  deriving Repr, DecidableEq

/-- Failure oracle for the fallible I/O primitives on the open path: `statErr`
is a non-`IsNotExist` failure of `osStat`, `appendOpenErr` a failure of the
`O_APPEND` open in `openExistingOrNew`, `openNewErr` a failure inside
`openNew` (mkdir / rename / create). -/
structure IOOracle where
  statErr : Bool
  appendOpenErr : Bool
  openNewErr : Bool
  deriving Repr, DecidableEq

/-- Oracle under which every I/O primitive succeeds. -/
def okIO : IOOracle := ⟨false, false, false⟩

/-- Embedding of `Writer.close`: closes the file if it is open (closing is
modelled as infallible). -/
def close (st : WState) : WState := { st with fileOpen := false }

/-- Success path of `Writer.openNew`: if a file exists at the target path it
is renamed to a backup name (its size joins `backups`), then a fresh file is
created with `O_TRUNC` and `w.size` is reset to 0. -/
def openNewCore (st : WState) : WState :=
  match st.disk with
  | some c => { fileOpen := true, size := 0, disk := some 0, backups := c :: st.backups }
  | none => { fileOpen := true, size := 0, disk := some 0, backups := st.backups }

/-- Embedding of `Writer.openNew` with its failure oracle: on failure
(mkdir/rename/create) the error is surfaced and the writer is left without an
open handle. -/
def openNew (o : IOOracle) (st : WState) : Option WErr × WState :=
  if o.openNewErr then (some .openNewFailed, { st with fileOpen := false })
  else (none, openNewCore st)

/-- Success path of `Writer.rotate`: close the current file, then `openNew`
(the `mill` signal is asynchronous and stateless here). -/
def rotateCore (st : WState) : WState := openNewCore (close st)

/-- Embedding of `Writer.rotate` with the failure oracle. -/
def rotate (o : IOOracle) (st : WState) : Option WErr × WState :=
  openNew o (close st)

/-- Embedding of `Writer.openExistingOrNew writeLen`: stat the target path;
if absent, `openNew`; if stat fails otherwise, surface the error; if the
existing size plus the incoming write length reaches `maxBytes`, perform a
full rotation; otherwise open in append mode (recovering `w.size` from the
stat size), silently falling back to `openNew` if that open fails. -/
def openExistingOrNew (c : Config) (o : IOOracle) (st : WState) (writeLen : Nat) :
    Option WErr × WState :=
  if o.statErr then (some .statFailed, st)
  else
    match st.disk with
    | none => openNew o st
    | some s =>
      if s + writeLen ≥ maxBytes c then rotate o st
      else if o.appendOpenErr then openNew o st
      else (none, { st with fileOpen := true, size := s })

/-- Result of a `Write` call: bytes reported written, error, final state. -/
structure WriteResult where
  n : Nat
  err : Option WErr
  st : WState
  deriving Repr, DecidableEq

/-- Embedding of `Writer.Write` for a payload of length `pLen`: reject
payloads longer than `maxBytes`; open or create the file when no handle is
open; rotate first when the write would push the current file past
`maxBytes`; finally append and advance `w.size` (the underlying `file.Write`
is modelled as writing all bytes). -/
def write (c : Config) (o : IOOracle) (st : WState) (pLen : Nat) : WriteResult :=
  if pLen > maxBytes c then ⟨0, some .writeTooLong, st⟩
  else
    match (if st.fileOpen then (none, st) else openExistingOrNew c o st pLen) with
    | (some e, st') => ⟨0, some e, st'⟩
    | (none, st1) =>
      match (if st1.size + pLen > maxBytes c then rotate o st1 else (none, st1)) with
      | (some e, st') => ⟨0, some e, st'⟩
      | (none, st2) =>
        ⟨pLen, none, { st2 with size := st2.size + pLen, disk := some (st2.disk.getD 0 + pLen) }⟩

/-- Config used by the spec's concrete scenario: rotation threshold 1000
bytes (MaxSize 1000 with the test-mocked `megabyte = 1`). -/
def cfg1000 : Config := ⟨1000, 0, 0, false, 1⟩

/-- Fresh writer state: no handle, no file on disk, no backups. -/
def initState : WState := ⟨false, 0, none, []⟩

/-- Three sequential 600-byte writes through the model, from a fresh state. -/
def threeWrites : WriteResult :=
  write cfg1000 okIO
    (write cfg1000 okIO (write cfg1000 okIO initState 600).st 600).st 600

/-- C1: on an already-open file, a write of `pLen ≤ maxBytes` with
`size + pLen > maxBytes` first rotates (the current file of size `curr` is
closed and renamed into the backups, a fresh file starts at size 0) and then
appends, leaving `currentSize = pLen`; and in the concrete scenario with
threshold 1000 and three sequential 600-byte writes the final state is a
current file of 600 bytes plus two 600-byte backups. -/
theorem write_over_threshold_rotates_then_appends
    (c : Config) (st : WState) (pLen curr : Nat)
    (hopen : st.fileOpen = true) (hdisk : st.disk = some curr)
    (hfit : pLen ≤ maxBytes c) (hover : maxBytes c < st.size + pLen) :
    write c okIO st pLen =
      ⟨pLen, none, { fileOpen := true, size := pLen, disk := some pLen,
                     backups := curr :: st.backups }⟩ ∧
    threeWrites = ⟨600, none, ⟨true, 600, some 600, [600, 600]⟩⟩ := by
  constructor
  · simp only [write, hopen, if_true]
    rw [if_neg (by omega)]
    simp only [rotate, openNew, okIO, Bool.false_eq_true, if_false, close, openNewCore, hdisk,
      if_pos hover]
    simp
  · rfl

/-- Witness for C1 at a concrete input. -/
theorem write_over_threshold_rotates_then_appends_witness :
    write cfg1000 okIO ⟨true, 600, some 600, []⟩ 600 =
      ⟨600, none, { fileOpen := true, size := 600, disk := some 600,
                    backups := 600 :: ([] : List Nat) }⟩ ∧
    threeWrites = ⟨600, none, ⟨true, 600, some 600, [600, 600]⟩⟩ :=
  write_over_threshold_rotates_then_appends cfg1000 ⟨true, 600, some 600, []⟩ 600 600
    rfl rfl (by decide) (by decide)

/-- C2: a payload longer than `maxBytes` is rejected up front: `Write`
returns `n = 0` and a non-`nil` error, and the writer state (handle,
`currentSize`, the file on disk, the backups) is unchanged — for every
I/O oracle, since the check precedes all I/O. -/
theorem write_too_long_rejected
    (c : Config) (o : IOOracle) (st : WState) (pLen : Nat)
    (h : pLen > maxBytes c) :
    write c o st pLen = ⟨0, some .writeTooLong, st⟩ := by
  simp [write, h]

/-- Witness for C2 at a concrete input. -/
theorem write_too_long_rejected_witness :
    write cfg1000 okIO initState 1001 = ⟨0, some .writeTooLong, initState⟩ :=
  write_too_long_rejected cfg1000 okIO initState 1001 (by decide)

/-- C3: with no file open and a file of size `s` on disk,
`openExistingOrNew` rotates in full when `s + writeLen ≥ maxBytes` (note the
boundary `≥`, versus the strict `>` used on an already-open file), and
otherwise append-opens the existing file recovering `currentSize = s`. -/
theorem openExistingOrNew_boundary
    (c : Config) (st : WState) (s writeLen : Nat)
    (hdisk : st.disk = some s) :
    (s + writeLen ≥ maxBytes c →
      openExistingOrNew c okIO st writeLen = (none, rotateCore st)) ∧
    (s + writeLen < maxBytes c →
      openExistingOrNew c okIO st writeLen =
        (none, { st with fileOpen := true, size := s })) := by
  constructor
  · intro hge
    simp [openExistingOrNew, okIO, hdisk, hge, rotate, openNew, rotateCore]
  · intro hlt
    simp [openExistingOrNew, okIO, hdisk, Nat.not_le.mpr hlt]

/-- Witness for C3 at concrete inputs (both branches, including the exact
boundary `s + writeLen = maxBytes`). -/
theorem openExistingOrNew_boundary_witness :
    (1000 ≥ maxBytes cfg1000 →
      openExistingOrNew cfg1000 okIO ⟨false, 0, some 400, []⟩ 600 =
        (none, rotateCore ⟨false, 0, some 400, []⟩)) ∧
    (1000 < maxBytes cfg1000 →
      openExistingOrNew cfg1000 okIO ⟨false, 0, some 400, []⟩ 600 =
        (none, { (⟨false, 0, some 400, []⟩ : WState) with fileOpen := true, size := 400 })) :=
  openExistingOrNew_boundary cfg1000 ⟨false, 0, some 400, []⟩ 400 600 rfl

/-- C9: when the target file exists, stat succeeds, the write fits
(`s + writeLen < maxBytes`) but the append-mode open fails, the error is
swallowed: the call behaves exactly as `openNew` — including `openNew`'s own
error behaviour, so the only error a caller can see is a creation error. -/
theorem openExistingOrNew_append_fallback
    (c : Config) (o : IOOracle) (st : WState) (s writeLen : Nat)
    (hstat : o.statErr = false) (hfail : o.appendOpenErr = true)
    (hdisk : st.disk = some s) (hfit : s + writeLen < maxBytes c) :
    openExistingOrNew c o st writeLen = openNew o st := by
  simp [openExistingOrNew, hstat, hfail, hdisk, Nat.not_le.mpr hfit]

/-- Witness for C9 at a concrete input. -/
theorem openExistingOrNew_append_fallback_witness :
    openExistingOrNew cfg1000 ⟨false, true, false⟩ ⟨false, 0, some 10, []⟩ 20 =
      openNew ⟨false, true, false⟩ ⟨false, 0, some 10, []⟩ :=
  openExistingOrNew_append_fallback cfg1000 ⟨false, true, false⟩ ⟨false, 0, some 10, []⟩
    10 20 rfl rfl rfl (by decide)

/-!
Backup-file naming and parsing.  Go strings are embedded as `List Char`; the
functions below work on base file names (the retention worker only ever
parses `f.Name()` of directory entries, which contains no path separator).
-/

/-- Embedding of the package constant `compressSuffix = ".gz"`. -/
def compressSuffix : List Char := ['.', 'g', 'z']

/-- Splits a base file name into stem and extension at the last dot, exactly
as `filepath.Ext` does on separator-free input: the extension is the suffix
beginning at the final dot (empty when there is no dot), and the stem is the
rest. -/
def splitExt (s : List Char) : List Char × List Char :=
  match s.reverse.dropWhile (fun c => c != '.') with
  | [] => (s, [])
  | _ :: restTail =>
    (restTail.reverse, '.' :: (s.reverse.takeWhile (fun c => c != '.')).reverse)

/-- Embedding of `Writer.prefixAndExt`: from the base of the writer's
filename, the retention pattern is `stem ++ "-"` as prefix and the extension
as suffix. -/
def prefixAndExt (base : List Char) : List Char × List Char :=
  ((splitExt base).1 ++ ['-'], (splitExt base).2)

/-- Calendar time as carried by a parsed backup timestamp (UTC fields, as
`time.Parse` produces for the layout `2006-01-02T15-04-05.000`). -/
structure GoTime where
  year : Nat
  month : Nat
  day : Nat
  hour : Nat
  minute : Nat
  sec : Nat
  millis : Nat
  deriving Repr, DecidableEq

/-- Leap-year rule used by `time.Parse` when validating a day-of-month. -/
def isLeap (y : Nat) : Bool := (y % 4 = 0 && y % 100 != 0) || y % 400 = 0

/-- Number of days in a month, as used by `time.Parse` date validation. -/
def daysInMonth (y m : Nat) : Nat :=
  if m = 2 then (if isLeap y then 29 else 28)
  else if m = 4 ∨ m = 6 ∨ m = 9 ∨ m = 11 then 30
  else 31

/-- Numeric value of an ASCII digit character. -/
def digitVal (c : Char) : Nat := c.toNat - 48

/-- Character of `ts` at position `i` (the timestamp layouts are
fixed-width, so positions are always in range where this is used). -/
def chAt (ts : List Char) (i : Nat) : Char := ts.getD i ' '

/-- Embedding of `time.Parse(backupTimeFormat, ts)` for the fixed layout
`2006-01-02T15-04-05.000`: the input must be exactly 23 characters with
literal separators `-`, `-`, `T`, `-`, `-`, `.` at positions 4, 7, 10, 13,
16, 19, digits everywhere else, and field values in range (month 1–12, day
valid for the month, hour < 24, minute and second < 60). -/
def parseBackupTime (ts : List Char) : Option GoTime :=
  if ts.length = 23 ∧
     chAt ts 4 = '-' ∧ chAt ts 7 = '-' ∧ chAt ts 10 = 'T' ∧ chAt ts 13 = '-' ∧
     chAt ts 16 = '-' ∧ chAt ts 19 = '.' ∧
     (chAt ts 0).isDigit ∧ (chAt ts 1).isDigit ∧ (chAt ts 2).isDigit ∧ (chAt ts 3).isDigit ∧
     (chAt ts 5).isDigit ∧ (chAt ts 6).isDigit ∧ (chAt ts 8).isDigit ∧ (chAt ts 9).isDigit ∧
     (chAt ts 11).isDigit ∧ (chAt ts 12).isDigit ∧ (chAt ts 14).isDigit ∧
     (chAt ts 15).isDigit ∧ (chAt ts 17).isDigit ∧ (chAt ts 18).isDigit ∧
     (chAt ts 20).isDigit ∧ (chAt ts 21).isDigit ∧ (chAt ts 22).isDigit then
    let y := 1000 * digitVal (chAt ts 0) + 100 * digitVal (chAt ts 1) +
      10 * digitVal (chAt ts 2) + digitVal (chAt ts 3)
    let mo := 10 * digitVal (chAt ts 5) + digitVal (chAt ts 6)
    let d := 10 * digitVal (chAt ts 8) + digitVal (chAt ts 9)
    let h := 10 * digitVal (chAt ts 11) + digitVal (chAt ts 12)
    let mi := 10 * digitVal (chAt ts 14) + digitVal (chAt ts 15)
    let s := 10 * digitVal (chAt ts 17) + digitVal (chAt ts 18)
    let ms := 100 * digitVal (chAt ts 20) + 10 * digitVal (chAt ts 21) + digitVal (chAt ts 22)
    if 1 ≤ mo ∧ mo ≤ 12 ∧ 1 ≤ d ∧ d ≤ daysInMonth y mo ∧ h < 24 ∧ mi < 60 ∧ s < 60 then
      some ⟨y, mo, d, h, mi, s, ms⟩
    else none
  else none

/-- Embedding of `Writer.timeFromName`: strip the expected prefix and
extension off the candidate filename and parse the remainder as a backup
timestamp; mismatched prefix or extension is an error (`none`). -/
def timeFromName (filename pfx ext : List Char) : Option GoTime :=
  if pfx.isPrefixOf filename then
    if ext.isSuffixOf filename then
      parseBackupTime ((filename.drop pfx.length).take
        (filename.length - ext.length - pfx.length))
    else none
  else none

/-- Civil date to days since the Unix epoch (proleptic Gregorian), matching
Go's absolute-time computation for UTC dates. -/
def daysFromCivil (y m d : Nat) : Int :=
  let y' : Nat := if m ≤ 2 then y - 1 else y
  let era : Nat := y' / 400
  let yoe : Nat := y' - era * 400
  let mp : Nat := (m + 9) % 12
  let doy : Nat := (153 * mp + 2) / 5 + d - 1
  let doe : Nat := yoe * 365 + yoe / 4 - yoe / 100 + doy
  (era : Int) * 146097 + (doe : Int) - 719468

/-- Absolute value of a parsed (UTC) backup timestamp in nanoseconds since
the Unix epoch; `time.Time` comparisons (`Before`/`After`) and duration
arithmetic act on this value. -/
def timeToNanos (t : GoTime) : Int :=
  (daysFromCivil t.year t.month t.day * 86400 +
    ((t.hour * 3600 + t.minute * 60 + t.sec : Nat) : Int)) * 1000000000 +
    (t.millis : Int) * 1000000

/-- Directory entry as seen by `oldLogFiles` (`os.FileInfo`): base name,
directory flag, and modification time (which retention never consults for
ordering — it rides along only to witness that fact). -/
structure FileInfo where
  name : List Char
  isDir : Bool
  modTime : Int
  deriving Repr, DecidableEq

/-- Embedding of `logInfo`: the timestamp parsed out of the backup filename
paired with the directory entry's fields. -/
structure logInfo where
  timestamp : Int
  name : List Char
  modTime : Int
  deriving Repr, DecidableEq

/-- Per-entry parsing step of `Writer.oldLogFiles`: directories are skipped;
a name parsing as `prefix+timestamp+ext` or as `prefix+timestamp+ext+".gz"`
yields a `logInfo`; anything else is ignored. -/
def parseBackupEntry (base : List Char) (e : FileInfo) : Option logInfo :=
  if e.isDir then none
  else
    match timeFromName e.name (prefixAndExt base).1 (prefixAndExt base).2 with
    | some t => some ⟨timeToNanos t, e.name, e.modTime⟩
    | none =>
      match timeFromName e.name (prefixAndExt base).1
          ((prefixAndExt base).2 ++ compressSuffix) with
      | some t => some ⟨timeToNanos t, e.name, e.modTime⟩
      | none => none

/-- Sort order of `byFormatTime` (newest first): `sort.Sort` with
`Less i j ⇔ ts j < ts i` yields a list pairwise ordered by `tsGE`. -/
def tsGE (a b : logInfo) : Prop := b.timestamp ≤ a.timestamp

instance : DecidableRel tsGE := fun a b => Int.decLe b.timestamp a.timestamp

instance : IsTotal logInfo tsGE := ⟨fun a b => (Int.le_total b.timestamp a.timestamp)⟩

instance : IsTrans logInfo tsGE := ⟨fun _ _ _ h1 h2 => Int.le_trans h2 h1⟩

/-- Embedding of `Writer.oldLogFiles`: filter-and-parse the directory
entries, then sort newest-first by the embedded timestamp (`sort.Sort` under
`byFormatTime.Less`; tie order is unspecified in Go's unstable sort, the
model picks insertion sort's). -/
def oldLogFiles (base : List Char) (entries : List FileInfo) : List logInfo :=
  (entries.filterMap (parseBackupEntry base)).insertionSort tsGE

/-!
The retention pass `millRunOnce`: count-based retention, age-based
retention, compression selection, then best-effort execution.
-/

/-- Logical name of a backup: the filename with a trailing `".gz"` stripped,
so a compressed and an uncompressed copy of the same rotation count once. -/
def logicalName (fn : List Char) : List Char :=
  if compressSuffix.isSuffixOf fn then fn.take (fn.length - compressSuffix.length) else fn

/-- Loop body of the `MaxBackups` block of `millRunOnce`: walk the files
newest-first, recording each logical name in `preserved` (a set, embedded as
a duplicate-free list); once more than `k` distinct logical names have been
seen, every further file goes to the remove list, the others to the
remaining list. -/
def millCountGo (k : Nat) (preserved : List (List Char)) :
    List logInfo → List logInfo × List logInfo
  | [] => ([], [])
  | f :: fs =>
    let fn := logicalName f.name
    let preserved' := if fn ∈ preserved then preserved else fn :: preserved
    let r := millCountGo k preserved' fs
    if preserved'.length > k then (r.1, f :: r.2) else (f :: r.1, r.2)

/-- The `MaxBackups` block of `millRunOnce` with its guard
(`MaxBackups > 0 && MaxBackups < len(files)`); returns
(remaining, marked-for-removal). -/
def countPhase (c : Config) (files : List logInfo) : List logInfo × List logInfo :=
  if 0 < c.maxBackups ∧ c.maxBackups < files.length then
    millCountGo c.maxBackups [] files
  else (files, [])

/-- One hour in nanoseconds (`time.Hour`). -/
def hourNanos : Int := 3600 * 1000000000

/-- Cutoff instant computed by the `MaxAge` block:
`currentTime().Add(-24h * MaxAge)`. -/
def millCutoff (c : Config) (now : Int) : Int :=
  now - 24 * hourNanos * (c.maxAge : Int)

/-- Loop body of the `MaxAge` block: files whose timestamp is strictly
before the cutoff go to the remove list, the rest remain. -/
def ageGo (cutoff : Int) : List logInfo → List logInfo × List logInfo
  | [] => ([], [])
  | f :: fs =>
    let r := ageGo cutoff fs
    if f.timestamp < cutoff then (r.1, f :: r.2) else (f :: r.1, r.2)

/-- The `MaxAge` block of `millRunOnce` with its guard (`MaxAge > 0`). -/
def agePhase (c : Config) (now : Int) (files : List logInfo) :
    List logInfo × List logInfo :=
  if 0 < c.maxAge then ageGo (millCutoff c now) files else (files, [])

/-- Selection portion of `millRunOnce`: count-based retention, then
age-based retention on the remainder, then (when compression is enabled)
selection of surviving files lacking the `.gz` suffix.  Returns
(files to remove, files to compress, surviving untouched files); the remove
list carries the count-based removals first, mirroring the order in which
the Go code appends to `remove`. -/
def millSelect (c : Config) (now : Int) (files : List logInfo) :
    List logInfo × List logInfo × List logInfo :=
  let r1 := countPhase c files
  let r2 := agePhase c now r1.1
  let compressL :=
    if c.compress then r2.1.filter (fun f => ¬ compressSuffix.isSuffixOf f.name) else []
  (r1.2 ++ r2.2, compressL, r2.1)

/-- Execution loop shared by the two `for` loops at the end of
`millRunOnce`: every file's operation is invoked (its name is collected),
and `err` is updated by `if err == nil && errOp != nil { err = errOp }`. -/
def millExecGo {ε : Type} (res : List Char → Option ε) :
    List logInfo → Option ε → List (List Char) × Option ε
  | [], err0 => ([], err0)
  | f :: fs, err0 =>
    let err1 := match err0 with | none => res f.name | some e => some e
    let r := millExecGo res fs err1
    (f.name :: r.1, r.2)

/-- Execution portion of `millRunOnce`: attempt every removal
(`os.Remove`), then every compression (`compressLogFile`), collecting the
names actually attempted and the error the pass returns.  `removeRes` and
`compressRes` are oracles giving each operation's outcome. -/
def millExec {ε : Type} (removeRes compressRes : List Char → Option ε)
    (removeL compressL : List logInfo) :
    List (List Char) × List (List Char) × Option ε :=
  let r := millExecGo removeRes removeL none
  let cpr := millExecGo compressRes compressL r.2
  (r.1, cpr.1, cpr.2)

/-- Embedding of `Writer.millRunOnce`: no-op when no retention or
compression is configured; otherwise list-and-parse the directory, select,
and execute.  Returns the attempted remove/compress names and the pass's
error. -/
def millRunOnce {ε : Type} (c : Config) (now : Int) (base : List Char)
    (entries : List FileInfo) (removeRes compressRes : List Char → Option ε) :
    List (List Char) × List (List Char) × Option ε :=
  if c.maxBackups = 0 ∧ c.maxAge = 0 ∧ c.compress = false then ([], [], none)
  else
    let files := oldLogFiles base entries
    let sel := millSelect c now files
    millExec removeRes compressRes sel.1 sel.2.1

/-!
The default pluggable backup namer `DefaultRotateOption` and the
minute-resolution timestamp format `backupTimeMinuteFormat = "200601021504"`.
-/

/-- ASCII digit character for `n % 10`, as Go's integer formatting emits. -/
def digitChar (n : Nat) : Char :=
  match n % 10 with
  | 0 => '0' | 1 => '1' | 2 => '2' | 3 => '3' | 4 => '4'
  | 5 => '5' | 6 => '6' | 7 => '7' | 8 => '8' | _ => '9'

/-- Decimal digit string of a natural number (most significant first). -/
def natChars (n : Nat) : List Char :=
  if _h : n < 10 then [digitChar n]
  else natChars (n / 10) ++ [digitChar n]
decreasing_by exact Nat.div_lt_self (by omega) (by omega)

/-- Zero-padded decimal rendering to width `w`, as Go's `Format` pads the
fixed-width fields of a layout. -/
def padNat (w n : Nat) : List Char :=
  List.replicate (w - (natChars n).length) '0' ++ natChars n

/-- Embedding of `t.Format(backupTimeMinuteFormat)`: the layout
`200601021504` renders year (4 digits), month, day, hour, minute (2 digits
each) with no separators. -/
def formatMinute (t : GoTime) : List Char :=
  padNat 4 t.year ++ padNat 2 t.month ++ padNat 2 t.day ++
    padNat 2 t.hour ++ padNat 2 t.minute

/-- Embedding of `DefaultRotateOption` restricted to the base name (the
directory is split off by `filepath.Dir`/`Base` and joined back unchanged,
and retention parses base names only): strip the extension, then strip a
second extension off the remainder, and emit
`pre ++ "-" ++ minuteTimestamp ++ secondExt`. -/
def defaultRotateBase (base : List Char) (t : GoTime) : List Char :=
  let fn1 := (splitExt base).1
  (splitExt fn1).1 ++ ['-'] ++ formatMinute t ++ (splitExt fn1).2

/-!
The compressor `compressLogFile`.
-/

/-- Contents of the destination file during/after compression: `pending`
while the gzip stream has not been flushed, `gz bytes` once it carries the
compressed image of `bytes`. -/
inductive GzData where
  | pending
  | gz (bytes : List Nat)
  deriving Repr, DecidableEq

/-- Slice of the file system touched by `compressLogFile`: the source file's
bytes (`none` when absent) and the destination file (`none` when absent). -/
structure CompFS where
  src : Option (List Nat)
  dst : Option GzData
  deriving Repr, DecidableEq

/-- Success/failure oracle for each fallible step of `compressLogFile`, in
program order. -/
structure CompOracle where
  openSrcOk : Bool
  statOk : Bool
  chownOk : Bool
  openDstOk : Bool
  copyOk : Bool
  gzCloseOk : Bool
  gzfCloseOk : Bool
  fCloseOk : Bool
  removeOk : Bool
  deriving Repr, DecidableEq

/-- Errors of the compressor model, one per fallible step. -/
inductive CErr where
  | openSrc | stat | chown | openDst | copyErr | gzClose | gzfClose | fClose | removeSrc
  deriving Repr, DecidableEq

/-- Embedding of `compressLogFile(src, dst)`: open the source, stat it,
chown the destination, create/truncate the destination, stream through gzip,
close the gzip writer, the destination and the source, then remove the
source.  The deferred cleanup armed after the destination is created removes
the destination whenever the function is about to return a non-`nil` error.
Modelled from the spec: the `chown` helper lives in a platform file not
present in the sources; per the spec's compressor description the
destination is created by the create step, so `chown` here may fail but does
not create the destination. -/
def compressLogFile (o : CompOracle) (fs : CompFS) : Option CErr × CompFS :=
  if o.openSrcOk = false then (some .openSrc, fs)
  else if o.statOk = false then (some .stat, fs)
  else if o.chownOk = false then (some .chown, fs)
  else if o.openDstOk = false then (some .openDst, fs)
  else
    let fs1 : CompFS := { fs with dst := some .pending }
    if o.copyOk = false then (some .copyErr, { fs1 with dst := none })
    else if o.gzCloseOk = false then (some .gzClose, { fs1 with dst := none })
    else
      let fs2 : CompFS := { fs1 with dst := some (.gz (fs.src.getD [])) }
      if o.gzfCloseOk = false then (some .gzfClose, { fs2 with dst := none })
      else if o.fCloseOk = false then (some .fClose, { fs2 with dst := none })
      else if o.removeOk = false then (some .removeSrc, { fs2 with dst := none })
      else (none, { fs2 with src := none })

/-!
Retention-pass theorems.
-/

/-- The age loop splits its input into the files at or after the cutoff and
the files strictly before it, preserving order. -/
theorem ageGo_eq_filter (cutoff : Int) (files : List logInfo) :
    ageGo cutoff files =
      (files.filter (fun f => decide (cutoff ≤ f.timestamp)),
       files.filter (fun f => decide (f.timestamp < cutoff))) := by
  induction files with
  | nil => rfl
  | cons f fs ih =>
    by_cases h : f.timestamp < cutoff
    · simp [ageGo, ih, h, List.filter_cons, Int.not_le.mpr h]
    · simp [ageGo, ih, h, List.filter_cons, Int.not_lt.mp h]

/-- C5: with `maxAge > 0`, the files the pass leaves untouched are exactly
the count-phase survivors timestamped at or after `now − maxAge` days; every
count-phase survivor strictly older than the cutoff joins the remove list
(after the count-based removals); consequently no surviving backup is older
than the cutoff. -/
theorem millRunOnce_age_cutoff
    (c : Config) (now : Int) (files : List logInfo) (hage : 0 < c.maxAge) :
    (millSelect c now files).2.2 =
      (countPhase c files).1.filter (fun f => decide (millCutoff c now ≤ f.timestamp)) ∧
    (millSelect c now files).1 =
      (countPhase c files).2 ++
        (countPhase c files).1.filter (fun f => decide (f.timestamp < millCutoff c now)) ∧
    ∀ f ∈ (millSelect c now files).2.2, millCutoff c now ≤ f.timestamp := by
  have hsel : millSelect c now files =
      ((countPhase c files).2 ++ (agePhase c now (countPhase c files).1).2,
       (if c.compress then
          (agePhase c now (countPhase c files).1).1.filter
            (fun f => ¬ compressSuffix.isSuffixOf f.name)
        else []),
       (agePhase c now (countPhase c files).1).1) := rfl
  have hap : agePhase c now (countPhase c files).1 =
      ((countPhase c files).1.filter (fun f => decide (millCutoff c now ≤ f.timestamp)),
       (countPhase c files).1.filter (fun f => decide (f.timestamp < millCutoff c now))) := by
    rw [agePhase, if_pos hage, ageGo_eq_filter]
  refine ⟨by rw [hsel, hap], by rw [hsel, hap], ?_⟩
  intro f hf
  rw [hsel, hap] at hf
  simpa using List.of_mem_filter hf

/-- Witness for C5 at a concrete input: one day of retention, one recent
and one stale backup, no count-based retention. -/
theorem millRunOnce_age_cutoff_witness :
    (millSelect ⟨0, 1, 0, false, 1⟩ (200 * 86400 * 1000000000)
        [⟨200 * 86400 * 1000000000, ['a'], 0⟩, ⟨0, ['b'], 0⟩]).2.2 =
      (countPhase ⟨0, 1, 0, false, 1⟩
          [⟨200 * 86400 * 1000000000, ['a'], 0⟩, ⟨0, ['b'], 0⟩]).1.filter
        (fun f => decide (millCutoff ⟨0, 1, 0, false, 1⟩ (200 * 86400 * 1000000000) ≤
          f.timestamp)) ∧
    (millSelect ⟨0, 1, 0, false, 1⟩ (200 * 86400 * 1000000000)
        [⟨200 * 86400 * 1000000000, ['a'], 0⟩, ⟨0, ['b'], 0⟩]).1 =
      (countPhase ⟨0, 1, 0, false, 1⟩
          [⟨200 * 86400 * 1000000000, ['a'], 0⟩, ⟨0, ['b'], 0⟩]).2 ++
        (countPhase ⟨0, 1, 0, false, 1⟩
            [⟨200 * 86400 * 1000000000, ['a'], 0⟩, ⟨0, ['b'], 0⟩]).1.filter
          (fun f => decide (f.timestamp <
            millCutoff ⟨0, 1, 0, false, 1⟩ (200 * 86400 * 1000000000))) ∧
    ∀ f ∈ (millSelect ⟨0, 1, 0, false, 1⟩ (200 * 86400 * 1000000000)
        [⟨200 * 86400 * 1000000000, ['a'], 0⟩, ⟨0, ['b'], 0⟩]).2.2,
      millCutoff ⟨0, 1, 0, false, 1⟩ (200 * 86400 * 1000000000) ≤ f.timestamp :=
  millRunOnce_age_cutoff ⟨0, 1, 0, false, 1⟩ (200 * 86400 * 1000000000)
    [⟨200 * 86400 * 1000000000, ['a'], 0⟩, ⟨0, ['b'], 0⟩] (by decide)

/-- First `some` in a list of optional errors. -/
def firstSome {ε : Type} : List (Option ε) → Option ε
  | [] => none
  | none :: rest => firstSome rest
  | some e :: _ => some e

theorem firstSome_append {ε : Type} (a b : List (Option ε)) :
    firstSome (a ++ b) =
      match firstSome a with
      | some e => some e
      | none => firstSome b := by
  induction a with
  | nil => rfl
  | cons x xs ih => cases x <;> simp [firstSome, ih]

theorem millExecGo_spec {ε : Type} (res : List Char → Option ε)
    (files : List logInfo) (err0 : Option ε) :
    millExecGo res files err0 =
      (files.map logInfo.name,
       match err0 with
       | some e => some e
       | none => firstSome (files.map fun f => res f.name)) := by
  induction files generalizing err0 with
  | nil => cases err0 <;> rfl
  | cons f fs ih =>
    cases err0 with
    | some e => simp [millExecGo, ih]
    | none => cases h : res f.name <;> simp [millExecGo, h, ih, firstSome]

/-- C7 (amended): every removal and every compression is attempted no
matter which operations fail, and the error the pass returns is the first
error encountered across the two categories in execution order (all
deletions, then all compressions); later errors — in particular the
compression category's first error when a deletion already failed — are
dropped. -/
theorem millExec_attempts_all_keeps_first_error {ε : Type}
    (removeRes compressRes : List Char → Option ε) (removeL compressL : List logInfo) :
    millExec removeRes compressRes removeL compressL =
      (removeL.map logInfo.name, compressL.map logInfo.name,
       firstSome ((removeL.map fun f => removeRes f.name) ++
         (compressL.map fun f => compressRes f.name))) := by
  rw [millExec, millExecGo_spec, millExecGo_spec, firstSome_append]

/-- C7 counterexample: with one failing deletion (error `1`) and one failing
compression (error `2`), both operations are attempted but the pass returns
only the deletion error; the compression category's first error is not
remembered anywhere, contradicting the per-category reading of the claim. -/
theorem millExec_drops_compression_error :
    millExec (fun _ => some (1 : Nat)) (fun _ => some 2)
        [⟨0, ['a'], 0⟩] [⟨0, ['b'], 0⟩] =
      ([['a']], [['b']], some 1) ∧ (1 : Nat) ≠ 2 := by
  constructor
  · rfl
  · decide

/-- Logical names (compressed suffix stripped) of a list of backups. -/
def logicalNamesOf (files : List logInfo) : List (List Char) :=
  files.map fun f => logicalName f.name

/-- Number of distinct logical names among `files`, on top of an initial
set `s` of already-seen names. -/
def distinctCount (s : Finset (List Char)) (files : List logInfo) : Nat :=
  (s ∪ (logicalNamesOf files).toFinset).card

/-- Specification-side reading of count-based retention: the file at
position `i` (newest-first order) is kept exactly when the number of
distinct logical names seen up to and including it is at most `k`. -/
def keptByCount (k : Nat) (files : List logInfo) : List logInfo :=
  (List.range files.length).filterMap fun i =>
    if distinctCount ∅ (files.take (i + 1)) ≤ k then files[i]? else none

/-- Specification-side reading of count-based retention: the file at
position `i` is marked for deletion exactly when it lies beyond the `k`-th
distinct logical name in newest-first order. -/
def markedByCount (k : Nat) (files : List logInfo) : List logInfo :=
  (List.range files.length).filterMap fun i =>
    if k < distinctCount ∅ (files.take (i + 1)) then files[i]? else none

theorem union_singleton_finset (s : Finset (List Char)) (a : List Char) :
    s ∪ {a} = insert a s := by
  ext x; simp [or_comm]

theorem millCountGo_eq_spec (k : Nat) (pres : List (List Char)) (files : List logInfo)
    (hnd : pres.Nodup) :
    millCountGo k pres files =
      ((List.range files.length).filterMap fun i =>
         if distinctCount pres.toFinset (files.take (i + 1)) ≤ k then files[i]? else none,
       (List.range files.length).filterMap fun i =>
         if k < distinctCount pres.toFinset (files.take (i + 1)) then files[i]? else none) := by
  induction files generalizing pres with
  | nil => simp [millCountGo]
  | cons f fs ih =>
    have hnd' : (if logicalName f.name ∈ pres then pres
        else logicalName f.name :: pres).Nodup := by
      by_cases hm : logicalName f.name ∈ pres <;> simp [hm, hnd]
    have hset : (if logicalName f.name ∈ pres then pres
        else logicalName f.name :: pres).toFinset = insert (logicalName f.name) pres.toFinset := by
      by_cases hm : logicalName f.name ∈ pres
      · simp [hm, Finset.insert_eq_self.mpr (List.mem_toFinset.mpr hm)]
      · simp [hm]
    have hlen : (if logicalName f.name ∈ pres then pres
        else logicalName f.name :: pres).length = (insert (logicalName f.name) pres.toFinset).card := by
      rw [← hset, List.toFinset_card_of_nodup hnd']
    have hhead : distinctCount pres.toFinset [f] =
        (insert (logicalName f.name) pres.toFinset).card := by
      simp only [distinctCount, logicalNamesOf, List.map_cons, List.map_nil,
        List.toFinset_cons, List.toFinset_nil]
      rw [show insert (logicalName f.name) (∅ : Finset (List Char)) = {logicalName f.name} from rfl,
        union_singleton_finset]
    have hshift : ∀ i : Nat,
        distinctCount (if logicalName f.name ∈ pres then pres
          else logicalName f.name :: pres).toFinset (fs.take (i + 1)) =
        distinctCount pres.toFinset ((f :: fs).take (i + 2)) := by
      intro i
      rw [hset]
      simp only [distinctCount, logicalNamesOf, List.take_succ_cons, List.map_cons,
        List.toFinset_cons]
      rw [Finset.insert_union, Finset.union_insert]
    have hrange : List.range (f :: fs).length = 0 :: (List.range fs.length).map Nat.succ := by
      simp [List.range_succ_eq_map]
    simp only [millCountGo, ih _ hnd', hrange, List.filterMap_cons, List.filterMap_map]
    have hfun1 : ((fun i =>
        if distinctCount pres.toFinset ((f :: fs).take (i + 1)) ≤ k then (f :: fs)[i]? else none) ∘
          Nat.succ) = fun i =>
        if distinctCount (if logicalName f.name ∈ pres then pres
          else logicalName f.name :: pres).toFinset (fs.take (i + 1)) ≤ k then fs[i]? else none := by
      funext i
      simp only [Function.comp_apply, Nat.succ_eq_add_one, hshift i, List.getElem?_cons_succ]
    have hfun2 : ((fun i =>
        if k < distinctCount pres.toFinset ((f :: fs).take (i + 1)) then (f :: fs)[i]? else none) ∘
          Nat.succ) = fun i =>
        if k < distinctCount (if logicalName f.name ∈ pres then pres
          else logicalName f.name :: pres).toFinset (fs.take (i + 1)) then fs[i]? else none := by
      funext i
      simp only [Function.comp_apply, Nat.succ_eq_add_one, hshift i, List.getElem?_cons_succ]
    rw [hfun1, hfun2]
    by_cases hdec : (if logicalName f.name ∈ pres then pres
        else logicalName f.name :: pres).length > k
    · have hcond : ¬ distinctCount pres.toFinset [f] ≤ k := by
        rw [hhead, ← hlen]; omega
      have hcond2 : k < distinctCount pres.toFinset [f] := by
        rw [hhead, ← hlen]; omega
      simp [hdec, hcond, hcond2]
    · have hcond : distinctCount pres.toFinset [f] ≤ k := by
        rw [hhead, ← hlen]; omega
      have hcond2 : ¬ k < distinctCount pres.toFinset [f] := by
        rw [hhead, ← hlen]; omega
      simp [hdec, hcond, hcond2]

/-- C4: when `maxBackups = k > 0` and more than `k` files parsed, the count
phase keeps exactly the files within the first `k` distinct logical names
(as seen newest-first, a `.gz` copy counting as its uncompressed twin) and
marks exactly the files beyond the `k`-th distinct logical name for
deletion. -/
theorem millRunOnce_count_retention (c : Config) (files : List logInfo)
    (hk : 0 < c.maxBackups) (hlen : c.maxBackups < files.length) :
    countPhase c files =
      (keptByCount c.maxBackups files, markedByCount c.maxBackups files) := by
  rw [countPhase, if_pos ⟨hk, hlen⟩, millCountGo_eq_spec _ _ _ List.nodup_nil,
    keptByCount, markedByCount]
  rfl

/-- Witness for C4 at a concrete input: `k = 1`, a compressed and an
uncompressed copy of the same rotation plus an older second backup; the two
copies count as one logical backup and survive, the older one is removed. -/
theorem millRunOnce_count_retention_witness :
    countPhase ⟨0, 0, 1, false, 1⟩
        [⟨5, ['a', '.', 'l'], 0⟩, ⟨5, ['a', '.', 'l', '.', 'g', 'z'], 0⟩, ⟨2, ['b'], 0⟩] =
      (keptByCount 1
        [⟨5, ['a', '.', 'l'], 0⟩, ⟨5, ['a', '.', 'l', '.', 'g', 'z'], 0⟩, ⟨2, ['b'], 0⟩],
       markedByCount 1
        [⟨5, ['a', '.', 'l'], 0⟩, ⟨5, ['a', '.', 'l', '.', 'g', 'z'], 0⟩, ⟨2, ['b'], 0⟩]) :=
  millRunOnce_count_retention ⟨0, 0, 1, false, 1⟩
    [⟨5, ['a', '.', 'l'], 0⟩, ⟨5, ['a', '.', 'l', '.', 'g', 'z'], 0⟩, ⟨2, ['b'], 0⟩]
    (by decide) (by decide)

/-- C6: the backup set a retention pass works from is exactly the
non-directory entries whose names parse against the writer's
prefix/extension pattern (uncompressed or `.gz`-suffixed) with the fixed
millisecond timestamp layout, and it is ordered newest-first by the
embedded timestamp — the entries' modification times play no role. -/
theorem oldLogFiles_parse_and_sort (base : List Char) (entries : List FileInfo) :
    (oldLogFiles base entries).Sorted tsGE ∧
    ∀ li, li ∈ oldLogFiles base entries ↔
      ∃ e ∈ entries, parseBackupEntry base e = some li := by
  constructor
  · exact List.sorted_insertionSort tsGE _
  · intro li
    rw [oldLogFiles,
      (List.perm_insertionSort tsGE (entries.filterMap (parseBackupEntry base))).mem_iff,
      List.mem_filterMap]

/-!
Structural facts about `splitExt`, digit strings, and `timeFromName`,
leading to C10: names produced by `DefaultRotateOption` never parse as
backup names, so such backups are invisible to the retention pass.
-/

theorem splitExt_fst_append_snd (s : List Char) : (splitExt s).1 ++ (splitExt s).2 = s := by
  rcases h : s.reverse.dropWhile (fun c => c != '.') with _ | ⟨d, rest⟩
  · simp [splitExt, h]
  · have hd : (d != '.') = false := by
      have h2 := List.head_dropWhile_not (fun c => c != '.') (l := s.reverse) (by simp [h])
      simpa [h] using h2
    have hd' : d = '.' := by simpa using hd
    have hs : s.reverse = s.reverse.takeWhile (fun c => c != '.') ++ (d :: rest) := by
      conv_lhs => rw [← List.takeWhile_append_dropWhile (p := fun c => c != '.') (l := s.reverse)]
      rw [h]
    have hs2 : s = rest.reverse ++ '.' :: (s.reverse.takeWhile (fun c => c != '.')).reverse := by
      have h3 := congrArg List.reverse hs
      simpa [hd', List.reverse_append] using h3
    simp only [splitExt, h]
    exact hs2.symm

theorem splitExt_snd_nil_iff (s : List Char) : (splitExt s).2 = [] ↔ '.' ∉ s := by
  rcases h : s.reverse.dropWhile (fun c => c != '.') with _ | ⟨d, rest⟩
  · simp only [splitExt, h]
    have hall : ∀ x ∈ s.reverse, (x != '.') = true := List.dropWhile_eq_nil_iff.mp h
    have hnot : '.' ∉ s := by
      intro hmem
      have h2 := hall '.' (by simpa using hmem)
      simp at h2
    simp [hnot]
  · simp only [splitExt, h]
    have hd : (d != '.') = false := by
      have h2 := List.head_dropWhile_not (fun c => c != '.') (l := s.reverse) (by simp [h])
      simpa [h] using h2
    have hd' : d = '.' := by simpa using hd
    have hmem : '.' ∈ s := by
      have h3 : d ∈ s.reverse :=
        (List.dropWhile_sublist _).subset (by rw [h]; exact List.mem_cons_self _ _)
      rw [hd'] at h3
      simpa using h3
    simp [hmem]

theorem splitExt_snd_form (s : List Char) :
    (splitExt s).2 = [] ∨ ∃ t, (splitExt s).2 = '.' :: t := by
  rcases h : s.reverse.dropWhile (fun c => c != '.') with _ | ⟨d, rest⟩
  · left; simp [splitExt, h]
  · right
    exact ⟨(s.reverse.takeWhile (fun c => c != '.')).reverse, by simp [splitExt, h]⟩

theorem splitExt_fst_of_snd_nil (s : List Char) (h : (splitExt s).2 = []) :
    (splitExt s).1 = s := by
  have := splitExt_fst_append_snd s
  rwa [h, List.append_nil] at this

theorem timeFromName_none_of_not_suffix (filename pfx ext : List Char)
    (h : ¬ ext.isSuffixOf filename = true) :
    timeFromName filename pfx ext = none := by
  rw [timeFromName]
  by_cases hp : pfx.isPrefixOf filename = true
  · rw [if_pos hp, if_neg h]
  · rw [if_neg hp]

theorem timeFromName_none_of_bad_pfx (filename pfx ext : List Char)
    (h : ¬ pfx.isPrefixOf filename = true) :
    timeFromName filename pfx ext = none := by
  rw [timeFromName, if_neg h]

theorem digitChar_isDigit (n : Nat) : (digitChar n).isDigit = true := by
  rw [digitChar]
  split <;> decide

theorem natChars_digits (n : Nat) : ∀ c ∈ natChars n, c.isDigit = true := by
  induction n using Nat.strong_induction_on with
  | _ n ih =>
    rw [natChars]
    split
    · intro c hc
      rw [List.mem_singleton] at hc
      subst hc
      exact digitChar_isDigit n
    · intro c hc
      rw [List.mem_append] at hc
      rcases hc with hc | hc
      · exact ih (n / 10) (Nat.div_lt_self (by omega) (by omega)) c hc
      · rw [List.mem_singleton] at hc
        subst hc
        exact digitChar_isDigit n

theorem padNat_digits (w n : Nat) : ∀ c ∈ padNat w n, c.isDigit = true := by
  intro c hc
  rw [padNat, List.mem_append] at hc
  rcases hc with hc | hc
  · rw [List.eq_of_mem_replicate hc]; decide
  · exact natChars_digits n c hc

theorem formatMinute_digits (t : GoTime) : ∀ c ∈ formatMinute t, c.isDigit = true := by
  intro c hc
  simp only [formatMinute, List.mem_append] at hc
  rcases hc with (((hc | hc) | hc) | hc) | hc <;>
    exact padNat_digits _ _ c hc

theorem parseBackupTime_none_of_digits (ts : List Char)
    (h : ∀ c ∈ ts, c.isDigit = true) : parseBackupTime ts = none := by
  rw [parseBackupTime]
  rw [if_neg]
  rintro ⟨hlen, h4, -⟩
  have hmem : chAt ts 4 ∈ ts := by
    rw [chAt, List.getD_eq_getElem _ _ (by omega)]
    exact List.getElem_mem _
  have hd := h _ hmem
  rw [h4] at hd
  exact absurd hd (by decide)

theorem dot_not_mem_backup (fn1 fmt : List Char) (hfn1 : '.' ∉ fn1)
    (hfmt : ∀ c ∈ fmt, c.isDigit = true) : '.' ∉ fn1 ++ '-' :: fmt := by
  intro hmem
  rw [List.mem_append, List.mem_cons] at hmem
  rcases hmem with hmem | hmem | hmem
  · exact hfn1 hmem
  · exact absurd hmem (by decide)
  · exact absurd (hfmt _ hmem) (by decide)

theorem not_suffix_of_dot_mem (ext backup : List Char) (hdot : '.' ∈ ext)
    (hbackup : '.' ∉ backup) : ¬ ext.isSuffixOf backup = true := by
  intro hsuf
  rw [List.isSuffixOf_iff_suffix] at hsuf
  exact hbackup (hsuf.subset hdot)

/-- C10: for every base filename (separator-free, as `filepath.Base`
guarantees) and every clock time, the name `DefaultRotateOption` produces —
with its 12-digit minute-resolution timestamp — fails `timeFromName` both
against the plain extension and against the `.gz`-suffixed extension, so a
backup named this way never enters the retention worker's backup set and is
never deleted or compressed by a pass. -/
theorem defaultRotateOption_invisible_to_retention
    (base : List Char) (t : GoTime) (mT : Int) (_hsep : '/' ∉ base) :
    timeFromName (defaultRotateBase base t) (prefixAndExt base).1 (prefixAndExt base).2 =
      none ∧
    timeFromName (defaultRotateBase base t) (prefixAndExt base).1
      ((prefixAndExt base).2 ++ compressSuffix) = none ∧
    parseBackupEntry base ⟨defaultRotateBase base t, false, mT⟩ = none := by
  have hpfx : (prefixAndExt base).1 = (splitExt base).1 ++ ['-'] := rfl
  have hext : (prefixAndExt base).2 = (splitExt base).2 := rfl
  have hmain : timeFromName (defaultRotateBase base t) (prefixAndExt base).1
        (prefixAndExt base).2 = none ∧
      timeFromName (defaultRotateBase base t) (prefixAndExt base).1
        ((prefixAndExt base).2 ++ compressSuffix) = none := by
    rcases splitExt_snd_form (splitExt base).1 with h2 | ⟨t2, h2⟩
    · -- second extension empty: the produced name is pre ++ "-" ++ digits
      have hpre : (splitExt (splitExt base).1).1 = (splitExt base).1 :=
        splitExt_fst_of_snd_nil _ h2
      have hback : defaultRotateBase base t = (splitExt base).1 ++ '-' :: formatMinute t := by
        rw [defaultRotateBase, hpre, h2, List.append_nil, List.append_assoc]
        rfl
      have hdotfree : '.' ∉ (splitExt base).1 ++ '-' :: formatMinute t :=
        dot_not_mem_backup _ _ ((splitExt_snd_nil_iff _).mp h2) (formatMinute_digits t)
      rcases splitExt_snd_form base with h1 | ⟨t1, h1⟩
      · -- no extension at all: prefix and (empty) suffix match, the middle
        -- is the all-digit minute timestamp, which the millisecond layout
        -- rejects
        constructor
        · rw [timeFromName]
          rw [if_pos, if_pos]
          · have hdrop : ((defaultRotateBase base t).drop (prefixAndExt base).1.length).take
                ((defaultRotateBase base t).length - (prefixAndExt base).2.length -
                  (prefixAndExt base).1.length) = formatMinute t := by
              rw [hback, hpfx, hext, h1]
              rw [show (splitExt base).1 ++ '-' :: formatMinute t =
                ((splitExt base).1 ++ ['-']) ++ formatMinute t by simp]
              rw [List.drop_left]
              apply List.take_of_length_le
              simp only [List.length_append, List.length_cons, List.length_nil]
              omega
            rw [hdrop]
            exact parseBackupTime_none_of_digits _ (formatMinute_digits t)
          · rw [hext, h1, List.isSuffixOf_iff_suffix]
            exact List.nil_suffix
          · rw [hpfx, hback, List.isPrefixOf_iff_prefix]
            rw [show (splitExt base).1 ++ '-' :: formatMinute t =
              ((splitExt base).1 ++ ['-']) ++ formatMinute t by simp]
            exact List.prefix_append _ _
        · apply timeFromName_none_of_not_suffix
          rw [hback, hext, h1]
          exact not_suffix_of_dot_mem _ _ (by decide) hdotfree
      · -- extension present but second extension empty: both candidate
        -- suffixes contain a dot while the produced name is dot-free
        constructor
        · apply timeFromName_none_of_not_suffix
          rw [hback, hext, h1]
          exact not_suffix_of_dot_mem _ _ (List.mem_cons_self _ _) hdotfree
        · apply timeFromName_none_of_not_suffix
          rw [hback, hext, h1]
          exact not_suffix_of_dot_mem _ _
            (by rw [List.cons_append]; exact List.mem_cons_self _ _) hdotfree
    · -- second extension nonempty: the expected prefix continues with the
      -- second extension's dot where the produced name has the dash
      obtain ⟨P, hP⟩ : ∃ P, (splitExt (splitExt base).1).1 = P := ⟨_, rfl⟩
      have hfn1 : (splitExt base).1 = P ++ '.' :: t2 := by
        conv_lhs => rw [← splitExt_fst_append_snd (splitExt base).1]
        rw [h2, hP]
      have hback2 : defaultRotateBase base t = P ++ ['-'] ++ formatMinute t ++ '.' :: t2 := by
        rw [defaultRotateBase, h2, hP]
      have hnp : ¬ ((prefixAndExt base).1.isPrefixOf (defaultRotateBase base t)) = true := by
        rw [hpfx, hback2, hfn1, List.isPrefixOf_iff_prefix]
        intro hp
        simp only [List.append_assoc, List.cons_append, List.nil_append] at hp
        rw [List.prefix_append_right_inj] at hp
        have hc := (List.cons_prefix_cons.mp hp).1
        exact absurd hc (by decide)
      exact ⟨timeFromName_none_of_bad_pfx _ _ _ hnp,
        timeFromName_none_of_bad_pfx _ _ _ hnp⟩
  refine ⟨hmain.1, hmain.2, ?_⟩
  rw [parseBackupEntry]
  simp only [Bool.false_eq_true, if_false, hmain.1, hmain.2]

/-- Witness for C10 at a concrete input (`app.log`, a concrete minute). -/
theorem defaultRotateOption_invisible_to_retention_witness :
    timeFromName (defaultRotateBase ['a', 'p', 'p', '.', 'l', 'o', 'g'] ⟨2025, 1, 2, 3, 4, 0, 0⟩)
        (prefixAndExt ['a', 'p', 'p', '.', 'l', 'o', 'g']).1
        (prefixAndExt ['a', 'p', 'p', '.', 'l', 'o', 'g']).2 = none ∧
    timeFromName (defaultRotateBase ['a', 'p', 'p', '.', 'l', 'o', 'g'] ⟨2025, 1, 2, 3, 4, 0, 0⟩)
        (prefixAndExt ['a', 'p', 'p', '.', 'l', 'o', 'g']).1
        ((prefixAndExt ['a', 'p', 'p', '.', 'l', 'o', 'g']).2 ++ compressSuffix) = none ∧
    parseBackupEntry ['a', 'p', 'p', '.', 'l', 'o', 'g']
      ⟨defaultRotateBase ['a', 'p', 'p', '.', 'l', 'o', 'g'] ⟨2025, 1, 2, 3, 4, 0, 0⟩,
        false, 0⟩ = none :=
  defaultRotateOption_invisible_to_retention ['a', 'p', 'p', '.', 'l', 'o', 'g']
    ⟨2025, 1, 2, 3, 4, 0, 0⟩ 0 (by decide)

/-- C8: `compressLogFile` is all-or-nothing for the destination and removes
the source only on full success: a successful run leaves the destination
holding the gzip image of the source and the source removed; any failing run
that got as far as creating the destination removes it again before
returning; and whenever an error is returned the source file is untouched. -/
theorem compressLogFile_all_or_nothing (o : CompOracle) (fs : CompFS) (bs : List Nat)
    (hsrc : fs.src = some bs) :
    ((compressLogFile o fs).1 = none →
      (compressLogFile o fs).2.dst = some (.gz bs) ∧ (compressLogFile o fs).2.src = none) ∧
    ((compressLogFile o fs).1 ≠ none →
      ((o.openSrcOk = true ∧ o.statOk = true ∧ o.chownOk = true ∧ o.openDstOk = true) →
        (compressLogFile o fs).2.dst = none) ∧
      (compressLogFile o fs).2.src = some bs) := by
  cases hA : o.openSrcOk <;> cases hB : o.statOk <;> cases hC : o.chownOk <;>
    cases hD : o.openDstOk <;> cases hE : o.copyOk <;> cases hF : o.gzCloseOk <;>
    cases hG : o.gzfCloseOk <;> cases hH : o.fCloseOk <;> cases hI : o.removeOk <;>
    simp [compressLogFile, hA, hB, hC, hD, hE, hF, hG, hH, hI, hsrc]

/-- Witness for C8 at concrete inputs (a fully successful run). -/
theorem compressLogFile_all_or_nothing_witness :
    ((compressLogFile ⟨true, true, true, true, true, true, true, true, true⟩
        ⟨some [7, 7], none⟩).1 = none →
      (compressLogFile ⟨true, true, true, true, true, true, true, true, true⟩
        ⟨some [7, 7], none⟩).2.dst = some (.gz [7, 7]) ∧
      (compressLogFile ⟨true, true, true, true, true, true, true, true, true⟩
        ⟨some [7, 7], none⟩).2.src = none) ∧
    ((compressLogFile ⟨true, true, true, true, true, true, true, true, true⟩
        ⟨some [7, 7], none⟩).1 ≠ none →
      ((CompOracle.openSrcOk ⟨true, true, true, true, true, true, true, true, true⟩ = true ∧
        CompOracle.statOk ⟨true, true, true, true, true, true, true, true, true⟩ = true ∧
        CompOracle.chownOk ⟨true, true, true, true, true, true, true, true, true⟩ = true ∧
        CompOracle.openDstOk ⟨true, true, true, true, true, true, true, true, true⟩ = true) →
        (compressLogFile ⟨true, true, true, true, true, true, true, true, true⟩
          ⟨some [7, 7], none⟩).2.dst = none) ∧
      (compressLogFile ⟨true, true, true, true, true, true, true, true, true⟩
        ⟨some [7, 7], none⟩).2.src = some [7, 7]) :=
  compressLogFile_all_or_nothing ⟨true, true, true, true, true, true, true, true, true⟩
    ⟨some [7, 7], none⟩ [7, 7] rfl

end RLog
